import Mathlib

/-!
Shallow embedding of the `soundlab` synthesis core (linear ADSR envelope,
voice, polyphonic voice pool) and proofs of its specified properties.

Floating-point (`f32`) arithmetic of the source is modelled by exact
rational arithmetic (`ℚ`); the external oscillator and pitch-conversion
collaborators are modelled as parameters, following their interface
contracts.
-/

namespace Soundlab

/-- Stages of the ADSR envelope state machine (`AdsrStage` in
`src/envelope/mod.rs`). -/
inductive AdsrStage where
  | Idle
  | Attack
  | Decay
  | Sustain
  | Release
  deriving DecidableEq, Repr

/-- Minimum time in seconds for attack, decay, and release
(`MIN_TIME` in `src/envelope/linear_adsr.rs`). -/
def MIN_TIME : ℚ := 1 / 1000

/-- Minimum envelope level (`MIN_LEVEL`). -/
def MIN_LEVEL : ℚ := 0

/-- Maximum envelope level (`MAX_LEVEL`). -/
def MAX_LEVEL : ℚ := 1

/-- State of the linear ADSR envelope generator (`LinearAdsr` in
`src/envelope/linear_adsr.rs`). -/
structure LinearAdsr where
  sample_rate : ℚ
  attack : ℚ
  decay : ℚ
  sustain : ℚ
  release : ℚ
  attack_rate : ℚ
  decay_rate : ℚ
  release_rate : ℚ
  stage : AdsrStage
  level : ℚ
  retrigger : Bool
  deriving DecidableEq, Repr

/-- Constructor `LinearAdsr::new`: times floored to 1 ms, sustain clamped
to `[0, 1]`, rates derived as `1 / (time * sample_rate)`. -/
def LinearAdsr.new (sample_rate attack decay sustain release : ℚ) : LinearAdsr :=
  let attack := max attack MIN_TIME
  let decay := max decay MIN_TIME
  let release := max release MIN_TIME
  { sample_rate := sample_rate
    attack := attack
    decay := decay
    sustain := min MAX_LEVEL (max MIN_LEVEL sustain)
    release := release
    attack_rate := 1 / (attack * sample_rate)
    decay_rate := 1 / (decay * sample_rate)
    release_rate := 1 / (release * sample_rate)
    stage := AdsrStage.Idle
    level := MIN_LEVEL
    retrigger := true }

/-- Setter `LinearAdsr::set_attack`: floors the time and recomputes the rate. -/
def LinearAdsr.set_attack (e : LinearAdsr) (seconds : ℚ) : LinearAdsr :=
  let attack := max seconds MIN_TIME
  { e with attack := attack, attack_rate := 1 / (attack * e.sample_rate) }

/-- Setter `LinearAdsr::set_decay`: floors the time and recomputes the rate. -/
def LinearAdsr.set_decay (e : LinearAdsr) (seconds : ℚ) : LinearAdsr :=
  let decay := max seconds MIN_TIME
  { e with decay := decay, decay_rate := 1 / (decay * e.sample_rate) }

/-- Setter `LinearAdsr::set_sustain`: clamps the level into `[0, 1]`. -/
def LinearAdsr.set_sustain (e : LinearAdsr) (lvl : ℚ) : LinearAdsr :=
  { e with sustain := min MAX_LEVEL (max MIN_LEVEL lvl) }

/-- Setter `LinearAdsr::set_release`: floors the time and recomputes the rate. -/
def LinearAdsr.set_release (e : LinearAdsr) (seconds : ℚ) : LinearAdsr :=
  let release := max seconds MIN_TIME
  { e with release := release, release_rate := 1 / (release * e.sample_rate) }

/-- Setter `LinearAdsr::set_retrigger`. -/
def LinearAdsr.set_retrigger (e : LinearAdsr) (b : Bool) : LinearAdsr :=
  { e with retrigger := b }

/-- Gate-on transition (`Envelope::gate_on` for `LinearAdsr`): with
retrigger the level is zeroed first; then the stage becomes `Decay` when
`level >= MAX_LEVEL` and `Attack` otherwise. -/
def LinearAdsr.gate_on (e : LinearAdsr) : LinearAdsr :=
  let e := if e.retrigger then { e with level := MIN_LEVEL } else e
  { e with stage := if MAX_LEVEL ≤ e.level then AdsrStage.Decay else AdsrStage.Attack }

/-- Gate-off transition (`Envelope::gate_off` for `LinearAdsr`): every
stage other than `Idle` moves to `Release`. -/
def LinearAdsr.gate_off (e : LinearAdsr) : LinearAdsr :=
  if e.stage ≠ AdsrStage.Idle then { e with stage := AdsrStage.Release } else e

/-- Per-sample advance (`Envelope::next_sample` for `LinearAdsr`); returns
the output level together with the updated state. -/
def LinearAdsr.next_sample (e : LinearAdsr) : ℚ × LinearAdsr :=
  let e :=
    match e.stage with
    | AdsrStage.Idle => e
    | AdsrStage.Attack =>
      let level := e.level + e.attack_rate
      if MAX_LEVEL ≤ level then { e with level := MAX_LEVEL, stage := AdsrStage.Decay }
      else { e with level := level }
    | AdsrStage.Decay =>
      let level := e.level - e.decay_rate
      if level ≤ e.sustain then { e with level := e.sustain, stage := AdsrStage.Sustain }
      else { e with level := level }
    | AdsrStage.Sustain => e
    | AdsrStage.Release =>
      let level := e.level - e.release_rate
      if level ≤ MIN_LEVEL then { e with level := MIN_LEVEL, stage := AdsrStage.Idle }
      else { e with level := level }
  (e.level, e)

/-- Activity predicate (`Envelope::is_active` for `LinearAdsr`). -/
def LinearAdsr.is_active (e : LinearAdsr) : Bool :=
  decide (e.stage ≠ AdsrStage.Idle)

/-- Reset (`Envelope::reset` for `LinearAdsr`): level to 0, stage to `Idle`. -/
def LinearAdsr.reset (e : LinearAdsr) : LinearAdsr :=
  { e with level := MIN_LEVEL, stage := AdsrStage.Idle }

/-- Reachability of one `LinearAdsr` state from another through the public
mutating operations of the type. -/
inductive Reach : LinearAdsr → LinearAdsr → Prop where
  | refl (e : LinearAdsr) : Reach e e
  | gate_on {e0 e : LinearAdsr} : Reach e0 e → Reach e0 e.gate_on
  | gate_off {e0 e : LinearAdsr} : Reach e0 e → Reach e0 e.gate_off
  | next_sample {e0 e : LinearAdsr} : Reach e0 e → Reach e0 e.next_sample.2
  | reset {e0 e : LinearAdsr} : Reach e0 e → Reach e0 e.reset
  | set_attack {e0 e : LinearAdsr} (t : ℚ) : Reach e0 e → Reach e0 (e.set_attack t)
  | set_decay {e0 e : LinearAdsr} (t : ℚ) : Reach e0 e → Reach e0 (e.set_decay t)
  | set_sustain {e0 e : LinearAdsr} (t : ℚ) : Reach e0 e → Reach e0 (e.set_sustain t)
  | set_release {e0 e : LinearAdsr} (t : ℚ) : Reach e0 e → Reach e0 (e.set_release t)
  | set_retrigger {e0 e : LinearAdsr} (b : Bool) : Reach e0 e → Reach e0 (e.set_retrigger b)

/-- Interface of the external tone-generator collaborator (the `Oscillator`
trait consumed by `src/voice/mod.rs`): per-sample output, frequency setter,
reset, over an abstract state type. -/
structure OscOps (σ : Type) where
  next_sample : σ → ℚ × σ
  set_frequency : ℚ → σ → σ
  reset : σ → σ

/-- Interface of the envelope capability (the `Envelope` trait in
`src/envelope/mod.rs`), over an abstract state type. -/
structure EnvOps (ε : Type) where
  gate_on : ε → ε
  gate_off : ε → ε
  next_sample : ε → ℚ × ε
  is_active : ε → Bool
  reset : ε → ε

/-- The `Envelope` trait implementation of `LinearAdsr`, packaged as
interface operations. -/
def adsrEnv : EnvOps LinearAdsr where
  gate_on := LinearAdsr.gate_on
  gate_off := LinearAdsr.gate_off
  next_sample := LinearAdsr.next_sample
  is_active := LinearAdsr.is_active
  reset := LinearAdsr.reset

/-- State of a synthesizer voice (`Voice<O, E>` in `src/voice/mod.rs`):
an oscillator state, an envelope state, a velocity, and an optional MIDI
note number. -/
structure Voice (σ ε : Type) where
  osc : σ
  amp_env : ε
  velocity : ℚ
  note : Option ℕ
  deriving DecidableEq

/-- Constructor `Voice::new`: idle, velocity 0, no note. -/
def Voice.new (osc : σ) (amp_env : ε) : Voice σ ε :=
  { osc := osc, amp_env := amp_env, velocity := 0, note := none }

/-- Fallible trigger `Voice::try_note_on`, parametrized by the external
pitch-conversion collaborator `pitch`. Mirrors the Rust body: the pitch
conversion runs first and an early return on failure leaves the state
untouched; on success the note is stored, the velocity clamped into
`[0, 1]`, the oscillator frequency set, and the envelope gated on. The
result pairs the returned `Result` with the final state. -/
def Voice.try_note_on (O : OscOps σ) (E : EnvOps ε) (pitch : ℕ → Option ℚ)
    (v : Voice σ ε) (midi_note : ℕ) (velocity : ℚ) : Except Unit Unit × Voice σ ε :=
  match pitch midi_note with
  | none => (Except.error (), v)
  | some p =>
    (Except.ok (),
      { v with
        note := some midi_note
        velocity := min 1 (max 0 velocity)
        osc := O.set_frequency p v.osc
        amp_env := E.gate_on v.amp_env })

/-- Convenience trigger `Voice::note_on`: runs `try_note_on` and discards
the returned `Result`, keeping the state it left behind. -/
def Voice.note_on (O : OscOps σ) (E : EnvOps ε) (pitch : ℕ → Option ℚ)
    (v : Voice σ ε) (midi_note : ℕ) (velocity : ℚ) : Voice σ ε :=
  (Voice.try_note_on O E pitch v midi_note velocity).2

/-- Release `Voice::note_off`: gates the envelope off and clears the
stored note. -/
def Voice.note_off (E : EnvOps ε) (v : Voice σ ε) : Voice σ ε :=
  { v with amp_env := E.gate_off v.amp_env, note := none }

/-- Per-sample advance `Voice::next_sample`: advances oscillator and
envelope one frame each and returns `osc_out * env_out * velocity`. -/
def Voice.next_sample (O : OscOps σ) (E : EnvOps ε) (v : Voice σ ε) :
    ℚ × Voice σ ε :=
  let osc_step := O.next_sample v.osc
  let env_step := E.next_sample v.amp_env
  (osc_step.1 * env_step.1 * v.velocity,
    { v with osc := osc_step.2, amp_env := env_step.2 })

/-- Activity predicate `Voice::is_active`: delegates to the envelope. -/
def Voice.is_active (E : EnvOps ε) (v : Voice σ ε) : Bool :=
  E.is_active v.amp_env

/-- Reset `Voice::reset`: resets envelope and oscillator, clears velocity
and note. -/
def Voice.reset (O : OscOps σ) (E : EnvOps ε) (v : Voice σ ε) : Voice σ ε :=
  { v with
    amp_env := E.reset v.amp_env
    osc := O.reset v.osc
    velocity := 0
    note := none }

/-- Voice steal strategy (`VoiceStealStrategy` in `src/polyphony/mod.rs`);
a single variant. -/
inductive VoiceStealStrategy where
  | Oldest
  deriving DecidableEq, Repr

/-- State of the polyphonic voice manager (`Polyphony<O, E, N>` in
`src/polyphony/mod.rs`). The two fixed-size arrays `voices: [Voice; N]`
and `ages: [u64; N]` are modelled as lists of equal length; the `u64`
counter is a natural number taken modulo `2 ^ 64` where it is written. -/
structure Polyphony (σ ε : Type) where
  voices : List (Voice σ ε)
  ages : List ℕ
  counter : ℕ
  steal_strategy : VoiceStealStrategy

/-- Helper for `Polyphony::find_free_voice`: the index of the first voice
whose `is_active` is false (Rust `Iterator::position`). -/
def findFreeAux (E : EnvOps ε) : List (Voice σ ε) → Option ℕ
  | [] => none
  | v :: rest =>
    if Voice.is_active E v then (findFreeAux E rest).map (· + 1)
    else some 0

/-- Private scan `Polyphony::find_free_voice`. -/
def Polyphony.find_free_voice (E : EnvOps ε) (p : Polyphony σ ε) : Option ℕ :=
  findFreeAux E p.voices

/-- Helper for `Polyphony::find_voice_to_steal`: index and value of the
first minimum of a list (Rust `min_by_key`, which keeps the first of
equally minimal elements). -/
def firstMinIdx : List ℕ → Option (ℕ × ℕ)
  | [] => none
  | a :: rest =>
    match firstMinIdx rest with
    | none => some (0, a)
    | some jb => if a ≤ jb.2 then some (0, a) else some (jb.1 + 1, jb.2)

/-- Private scan `Polyphony::find_voice_to_steal`: under the `Oldest`
strategy, the index of the minimum age (first on ties), `0` when the pool
is empty (Rust `unwrap_or(0)`). -/
def Polyphony.find_voice_to_steal (p : Polyphony σ ε) : ℕ :=
  match p.steal_strategy with
  | VoiceStealStrategy.Oldest =>
    match firstMinIdx p.ages with
    | none => 0
    | some jb => jb.1

/-- Voice selection of `Polyphony::note_on` (the Rust expression
`self.find_free_voice().unwrap_or_else(|| self.find_voice_to_steal())`). -/
def Polyphony.select_voice (E : EnvOps ε) (p : Polyphony σ ε) : ℕ :=
  match Polyphony.find_free_voice E p with
  | some i => i
  | none => Polyphony.find_voice_to_steal p

/-- Trigger `Polyphony::note_on`: picks the first free voice, else the
steal target; increments the counter; stamps the chosen voice's age; and
invokes that voice's `note_on`. The Rust code indexes the fixed-size
arrays directly; an out-of-bounds index (reachable only for `N = 0`) is a
panic, modelled here as `none`. -/
def Polyphony.note_on (O : OscOps σ) (E : EnvOps ε) (pitch : ℕ → Option ℚ)
    (p : Polyphony σ ε) (midi_note : ℕ) (velocity : ℚ) : Option (Polyphony σ ε) :=
  let voice_idx := Polyphony.select_voice E p
  let c := (p.counter + 1) % 2 ^ 64
  if voice_idx < p.ages.length then
    match p.voices[voice_idx]? with
    | some v =>
      some
        { voices := p.voices.set voice_idx (Voice.note_on O E pitch v midi_note velocity)
          ages := p.ages.set voice_idx c
          counter := c
          steal_strategy := p.steal_strategy }
    | none => none
  else none

/-- Helper for `Polyphony::note_off`: applies `Voice::note_off` to the
first voice holding the given note (Rust `iter_mut().find(..)`). -/
def noteOffFirst (E : EnvOps ε) (n : ℕ) : List (Voice σ ε) → List (Voice σ ε)
  | [] => []
  | v :: rest =>
    if v.note = some n then Voice.note_off E v :: rest
    else v :: noteOffFirst E n rest

/-- Release `Polyphony::note_off`: releases the first voice in pool order
whose stored note matches; a no-op when none matches. -/
def Polyphony.note_off (E : EnvOps ε) (p : Polyphony σ ε) (midi_note : ℕ) :
    Polyphony σ ε :=
  { p with voices := noteOffFirst E midi_note p.voices }

/-- Helper for `Polyphony::next_sample`: left-to-right scan that advances
exactly the voices reporting active and sums their outputs (Rust
`iter_mut().filter(..).map(..).sum()`). -/
def polyNextAux (O : OscOps σ) (E : EnvOps ε) :
    List (Voice σ ε) → ℚ × List (Voice σ ε)
  | [] => (0, [])
  | v :: rest =>
    let tail := polyNextAux O E rest
    if Voice.is_active E v then
      let step := Voice.next_sample O E v
      (step.1 + tail.1, step.2 :: tail.2)
    else (tail.1, v :: tail.2)

/-- Per-sample advance `Polyphony::next_sample`. -/
def Polyphony.next_sample (O : OscOps σ) (E : EnvOps ε) (p : Polyphony σ ε) :
    ℚ × Polyphony σ ε :=
  let scan := polyNextAux O E p.voices
  (scan.1, { p with voices := scan.2 })

/-- Count `Polyphony::active_count`. -/
def Polyphony.active_count (E : EnvOps ε) (p : Polyphony σ ε) : ℕ :=
  p.voices.countP (Voice.is_active E)

/-- Capacity `Polyphony::capacity` (the const generic `N`). -/
def Polyphony.capacity (p : Polyphony σ ε) : ℕ :=
  p.voices.length

/-- Panic/all-notes-off `Polyphony::reset`: resets every voice, zeroes all
ages and the counter. -/
def Polyphony.reset (O : OscOps σ) (E : EnvOps ε) (p : Polyphony σ ε) :
    Polyphony σ ε :=
  { voices := p.voices.map (Voice.reset O E)
    ages := List.replicate p.ages.length 0
    counter := 0
    steal_strategy := p.steal_strategy }

/-- Trivial concrete oscillator used to instantiate witness statements:
its state is `Unit` and its output constantly `1`. -/
def unitOsc : OscOps Unit where
  next_sample := fun s => (1, s)
  set_frequency := fun _ s => s
  reset := fun s => s

/-- Concrete pitch-conversion collaborator used to instantiate witness
statements, following the interface contract: defined on MIDI note
numbers `0..=127`, failing outside that range. -/
def pitchStd (n : ℕ) : Option ℚ :=
  if n ≤ 127 then some (440 * (n + 1)) else none

/-- Concrete voice used to instantiate witness statements. -/
def sampleVoice : Voice Unit LinearAdsr :=
  Voice.new () (LinearAdsr.new 10 1 1 (1/2) 1)

/-- Concrete one-voice pool used to instantiate witness statements. -/
def samplePool : Polyphony Unit LinearAdsr :=
  { voices := [sampleVoice]
    ages := [0]
    counter := 0
    steal_strategy := VoiceStealStrategy.Oldest }

/-- Closure of a property of `LinearAdsr` states under all public mutating
operations, transported along `Reach`. -/
theorem Reach.mono {P : LinearAdsr → Prop}
    (hg1 : ∀ e, P e → P e.gate_on)
    (hg2 : ∀ e, P e → P e.gate_off)
    (hns : ∀ e, P e → P e.next_sample.2)
    (hrs : ∀ e, P e → P e.reset)
    (ha : ∀ e t, P e → P (e.set_attack t))
    (hd : ∀ e t, P e → P (e.set_decay t))
    (hs : ∀ e t, P e → P (e.set_sustain t))
    (hr : ∀ e t, P e → P (e.set_release t))
    (hrt : ∀ e b, P e → P (e.set_retrigger b))
    {e0 e : LinearAdsr} (h0 : P e0) (h : Reach e0 e) : P e := by
  induction h with
  | refl => exact h0
  | gate_on _ ih => exact hg1 _ ih
  | gate_off _ ih => exact hg2 _ ih
  | next_sample _ ih => exact hns _ ih
  | reset _ ih => exact hrs _ ih
  | set_attack t _ ih => exact ha _ t ih
  | set_decay t _ ih => exact hd _ t ih
  | set_sustain t _ ih => exact hs _ t ih
  | set_release t _ ih => exact hr _ t ih
  | set_retrigger b _ ih => exact hrt _ b ih

/-- Inductive invariant of the envelope used for the level-bounds
property: positive sample rate, nonnegative rates, sustain and level in
`[0, 1]`. -/
def EnvInv (e : LinearAdsr) : Prop :=
  0 < e.sample_rate ∧ 0 ≤ e.attack_rate ∧ 0 ≤ e.decay_rate ∧ 0 ≤ e.release_rate ∧
    0 ≤ e.sustain ∧ e.sustain ≤ 1 ∧ 0 ≤ e.level ∧ e.level ≤ 1

theorem envInv_new {sr a d s r : ℚ} (hsr : 0 < sr) :
    EnvInv (LinearAdsr.new sr a d s r) := by
  have hmt : (0:ℚ) < MIN_TIME := by norm_num [MIN_TIME]
  have hA : (0:ℚ) < max a MIN_TIME := lt_max_of_lt_right hmt
  have hD : (0:ℚ) < max d MIN_TIME := lt_max_of_lt_right hmt
  have hR : (0:ℚ) < max r MIN_TIME := lt_max_of_lt_right hmt
  exact ⟨hsr,
    le_of_lt (div_pos one_pos (mul_pos hA hsr)),
    le_of_lt (div_pos one_pos (mul_pos hD hsr)),
    le_of_lt (div_pos one_pos (mul_pos hR hsr)),
    le_min zero_le_one (le_max_left 0 s),
    min_le_left 1 _,
    le_refl 0,
    zero_le_one⟩

theorem envInv_gate_on {e : LinearAdsr} (h : EnvInv e) : EnvInv e.gate_on := by
  obtain ⟨sr, a, d, s, r, ar, dr, rr, st, lv, rt⟩ := e
  obtain ⟨h1, h2, h3, h4, h5, h6, h7, h8⟩ := h
  cases rt <;> simp only [LinearAdsr.gate_on] <;> split_ifs <;>
    first
      | exact ⟨h1, h2, h3, h4, h5, h6, h7, h8⟩
      | exact ⟨h1, h2, h3, h4, h5, h6, le_refl 0, zero_le_one⟩

theorem envInv_gate_off {e : LinearAdsr} (h : EnvInv e) : EnvInv e.gate_off := by
  obtain ⟨sr, a, d, s, r, ar, dr, rr, st, lv, rt⟩ := e
  obtain ⟨h1, h2, h3, h4, h5, h6, h7, h8⟩ := h
  cases st <;> simp only [LinearAdsr.gate_off] <;> split_ifs <;>
    exact ⟨h1, h2, h3, h4, h5, h6, h7, h8⟩

theorem envInv_next_sample {e : LinearAdsr} (h : EnvInv e) :
    EnvInv e.next_sample.2 := by
  obtain ⟨sr, a, d, s, r, ar, dr, rr, st, lv, rt⟩ := e
  obtain ⟨h1, h2, h3, h4, h5, h6, h7, h8⟩ := h
  cases st with
  | Idle => exact ⟨h1, h2, h3, h4, h5, h6, h7, h8⟩
  | Attack =>
    simp only [LinearAdsr.next_sample]
    split_ifs with hc
    · exact ⟨h1, h2, h3, h4, h5, h6, zero_le_one, le_refl 1⟩
    · have hc' : ¬ (1:ℚ) ≤ lv + ar := hc
      exact ⟨h1, h2, h3, h4, h5, h6,
        by show (0:ℚ) ≤ lv + ar; linarith,
        by show lv + ar ≤ (1:ℚ); linarith⟩
  | Decay =>
    simp only [LinearAdsr.next_sample]
    split_ifs with hc
    · exact ⟨h1, h2, h3, h4, h5, h6, h5, h6⟩
    · have hc' : ¬ lv - dr ≤ s := hc
      exact ⟨h1, h2, h3, h4, h5, h6,
        by show (0:ℚ) ≤ lv - dr; linarith,
        by show lv - dr ≤ (1:ℚ); linarith⟩
  | Sustain => exact ⟨h1, h2, h3, h4, h5, h6, h7, h8⟩
  | Release =>
    simp only [LinearAdsr.next_sample]
    split_ifs with hc
    · exact ⟨h1, h2, h3, h4, h5, h6, le_refl 0, zero_le_one⟩
    · have hc' : ¬ lv - rr ≤ (0:ℚ) := hc
      exact ⟨h1, h2, h3, h4, h5, h6,
        by show (0:ℚ) ≤ lv - rr; linarith,
        by show lv - rr ≤ (1:ℚ); linarith⟩

theorem envInv_reset {e : LinearAdsr} (h : EnvInv e) : EnvInv e.reset := by
  obtain ⟨h1, h2, h3, h4, h5, h6, _, _⟩ := h
  exact ⟨h1, h2, h3, h4, h5, h6, le_refl 0, zero_le_one⟩

theorem envInv_set_attack {e : LinearAdsr} (t : ℚ) (h : EnvInv e) :
    EnvInv (e.set_attack t) := by
  obtain ⟨h1, h2, h3, h4, h5, h6, h7, h8⟩ := h
  have hT : (0:ℚ) < max t MIN_TIME := lt_max_of_lt_right (by norm_num [MIN_TIME])
  exact ⟨h1, le_of_lt (div_pos one_pos (mul_pos hT h1)), h3, h4, h5, h6, h7, h8⟩

theorem envInv_set_decay {e : LinearAdsr} (t : ℚ) (h : EnvInv e) :
    EnvInv (e.set_decay t) := by
  obtain ⟨h1, h2, h3, h4, h5, h6, h7, h8⟩ := h
  have hT : (0:ℚ) < max t MIN_TIME := lt_max_of_lt_right (by norm_num [MIN_TIME])
  exact ⟨h1, h2, le_of_lt (div_pos one_pos (mul_pos hT h1)), h4, h5, h6, h7, h8⟩

theorem envInv_set_sustain {e : LinearAdsr} (t : ℚ) (h : EnvInv e) :
    EnvInv (e.set_sustain t) := by
  obtain ⟨h1, h2, h3, h4, _, _, h7, h8⟩ := h
  exact ⟨h1, h2, h3, h4, le_min zero_le_one (le_max_left 0 t),
    min_le_left 1 _, h7, h8⟩

theorem envInv_set_release {e : LinearAdsr} (t : ℚ) (h : EnvInv e) :
    EnvInv (e.set_release t) := by
  obtain ⟨h1, h2, h3, h4, h5, h6, h7, h8⟩ := h
  have hT : (0:ℚ) < max t MIN_TIME := lt_max_of_lt_right (by norm_num [MIN_TIME])
  exact ⟨h1, h2, h3, le_of_lt (div_pos one_pos (mul_pos hT h1)), h5, h6, h7, h8⟩

theorem envInv_set_retrigger {e : LinearAdsr} (b : Bool) (h : EnvInv e) :
    EnvInv (e.set_retrigger b) := h

theorem envInv_of_reach {sr a d s r : ℚ} (hsr : 0 < sr) {e : LinearAdsr}
    (h : Reach (LinearAdsr.new sr a d s r) e) : EnvInv e :=
  Reach.mono (fun _ hP => envInv_gate_on hP) (fun _ hP => envInv_gate_off hP)
    (fun _ hP => envInv_next_sample hP) (fun _ hP => envInv_reset hP)
    (fun _ t hP => envInv_set_attack t hP) (fun _ t hP => envInv_set_decay t hP)
    (fun _ t hP => envInv_set_sustain t hP) (fun _ t hP => envInv_set_release t hP)
    (fun _ b hP => envInv_set_retrigger b hP) (envInv_new hsr) h

/-- Inductive invariant for the idle stage: an idle envelope has level 0. -/
def IdleZero (e : LinearAdsr) : Prop :=
  e.stage = AdsrStage.Idle → e.level = 0

theorem idleZero_gate_on {e : LinearAdsr} (_h : IdleZero e) : IdleZero e.gate_on := by
  obtain ⟨sr, a, d, s, r, ar, dr, rr, st, lv, rt⟩ := e
  cases rt <;> simp only [LinearAdsr.gate_on] <;> split_ifs <;>
    intro hI <;> simp at hI

theorem idleZero_gate_off {e : LinearAdsr} (h : IdleZero e) : IdleZero e.gate_off := by
  obtain ⟨sr, a, d, s, r, ar, dr, rr, st, lv, rt⟩ := e
  cases st <;> simp only [LinearAdsr.gate_off] <;> split_ifs <;>
    first
      | exact h
      | (intro hI; simp at hI)

theorem idleZero_next_sample {e : LinearAdsr} (h : IdleZero e) :
    IdleZero e.next_sample.2 := by
  obtain ⟨sr, a, d, s, r, ar, dr, rr, st, lv, rt⟩ := e
  cases st with
  | Idle => exact h
  | Attack =>
    simp only [LinearAdsr.next_sample]
    split_ifs <;> intro hI <;> simp at hI
  | Decay =>
    simp only [LinearAdsr.next_sample]
    split_ifs <;> intro hI <;> simp at hI
  | Sustain =>
    simp only [LinearAdsr.next_sample]
    intro hI
    simp at hI
  | Release =>
    simp only [LinearAdsr.next_sample]
    split_ifs <;> intro hI
    · rfl
    · simp at hI

theorem idleZero_reset {e : LinearAdsr} (_h : IdleZero e) : IdleZero e.reset :=
  fun _ => rfl

theorem idleZero_of_reach {sr a d s r : ℚ} {e : LinearAdsr}
    (h : Reach (LinearAdsr.new sr a d s r) e) : IdleZero e :=
  Reach.mono (fun _ hP => idleZero_gate_on hP) (fun _ hP => idleZero_gate_off hP)
    (fun _ hP => idleZero_next_sample hP) (fun _ hP => idleZero_reset hP)
    (fun _ _ hP hI => hP hI) (fun _ _ hP hI => hP hI)
    (fun _ _ hP hI => hP hI) (fun _ _ hP hI => hP hI)
    (fun _ _ hP hI => hP hI) (fun _ => rfl) h

theorem next_sample_idle_fst {e : LinearAdsr} (hs : e.stage = AdsrStage.Idle) :
    e.next_sample.1 = e.level := by
  obtain ⟨sr, a, d, s, r, ar, dr, rr, st, lv, rt⟩ := e
  cases st with
  | Idle => rfl
  | Attack => simp at hs
  | Decay => simp at hs
  | Sustain => simp at hs
  | Release => simp at hs

/-- C1 (amended): for every `LinearAdsr` constructed with a positive
sample rate, the envelope level remains within `[0, 1]` after every
sequence of public operations (including `gate_on`, `gate_off`,
`next_sample` from a freshly constructed or reset state). Without the
positivity hypothesis the invariant fails, see the counterexample. -/
theorem C1_level_in_unit_interval (sr a d s r : ℚ) (hsr : 0 < sr)
    (e : LinearAdsr) (h : Reach (LinearAdsr.new sr a d s r) e) :
    0 ≤ e.level ∧ e.level ≤ 1 :=
  ⟨(envInv_of_reach hsr h).2.2.2.2.2.2.1,
   (envInv_of_reach hsr h).2.2.2.2.2.2.2⟩

/-- Witness for C1: a concrete reachable state of a concretely
constructed envelope has its level inside `[0, 1]`. -/
theorem C1_level_in_unit_interval_witness :
    0 ≤ ((LinearAdsr.new 10 (1/10) (1/10) (1/2) (1/10)).gate_on.next_sample.2).level ∧
      ((LinearAdsr.new 10 (1/10) (1/10) (1/2) (1/10)).gate_on.next_sample.2).level ≤ 1 :=
  C1_level_in_unit_interval 10 (1/10) (1/10) (1/2) (1/10) (by norm_num) _
    (Reach.next_sample (Reach.gate_on (Reach.refl _)))

/-- Counterexample to C1 as stated: for an envelope constructed with
sample rate `-1` (never rejected by `LinearAdsr::new`), the attack rate is
`-1`, and after `gate_on` one `next_sample` call drives the level to `-1`,
outside `[0, 1]`. -/
theorem C1_counterexample :
    ¬ (∀ (sr a d s r : ℚ) (e : LinearAdsr),
        Reach (LinearAdsr.new sr a d s r) e → 0 ≤ e.level ∧ e.level ≤ 1) := by
  intro hclaim
  have h := (hclaim (-1) 1 1 (1/2) 1
    ((LinearAdsr.new (-1) 1 1 (1/2) 1).gate_on.next_sample.2)
    (Reach.next_sample (Reach.gate_on (Reach.refl _)))).1
  norm_num [LinearAdsr.new, LinearAdsr.gate_on, LinearAdsr.next_sample,
    MIN_TIME, MIN_LEVEL, MAX_LEVEL] at h

/-- C9: for every reachable `LinearAdsr` state, stage `Idle` implies
level 0, a `next_sample` output of 0, and `is_active` false; conversely a
non-`Idle` stage implies `is_active` true. -/
theorem C9_idle_iff_inactive (sr a d s r : ℚ) (e : LinearAdsr)
    (h : Reach (LinearAdsr.new sr a d s r) e) :
    (e.stage = AdsrStage.Idle →
      e.level = 0 ∧ e.next_sample.1 = 0 ∧ e.is_active = false) ∧
    (e.stage ≠ AdsrStage.Idle → e.is_active = true) := by
  constructor
  · intro hs
    have hl := idleZero_of_reach h hs
    refine ⟨hl, ?_, ?_⟩
    · rw [next_sample_idle_fst hs, hl]
    · simp [LinearAdsr.is_active, hs]
  · intro hs
    simp [LinearAdsr.is_active, hs]

/-- Witness for C9: both directions instantiated at concrete reachable
states, a fresh (idle) envelope and a gated-on (attacking) one. -/
theorem C9_idle_iff_inactive_witness :
    ((LinearAdsr.new 10 1 1 (1/2) 1).level = 0 ∧
      (LinearAdsr.new 10 1 1 (1/2) 1).next_sample.1 = 0 ∧
      (LinearAdsr.new 10 1 1 (1/2) 1).is_active = false) ∧
    (LinearAdsr.new 10 1 1 (1/2) 1).gate_on.is_active = true :=
  ⟨(C9_idle_iff_inactive 10 1 1 (1/2) 1 _ (Reach.refl _)).1 rfl,
   (C9_idle_iff_inactive 10 1 1 (1/2) 1 _ (Reach.gate_on (Reach.refl _))).2
     (by norm_num [LinearAdsr.new, LinearAdsr.gate_on, MIN_LEVEL, MAX_LEVEL]
         decide)⟩

/-- State part of one `next_sample` call, used to iterate the envelope. -/
def envStep (e : LinearAdsr) : LinearAdsr := e.next_sample.2

/-- Envelope of the worked example of the spec: sample rate 10, attack,
decay, and release 0.1 s, sustain 0.5, after `gate_on`. -/
def c4Env : LinearAdsr := (LinearAdsr.new 10 (1/10) (1/10) (1/2) (1/10)).gate_on

theorem c4Env_eq :
    c4Env = ⟨10, 1/10, 1/10, 1/2, 1/10, 1, 1, 1, AdsrStage.Attack, 0, true⟩ := by
  norm_num [c4Env, LinearAdsr.new, LinearAdsr.gate_on, MIN_TIME, MIN_LEVEL,
    MAX_LEVEL, max_def, min_def]

theorem c4_out1 : c4Env.next_sample.1 = 1 := by
  rw [c4Env_eq]
  norm_num [LinearAdsr.next_sample, MAX_LEVEL]

theorem c4_s1 :
    envStep c4Env = ⟨10, 1/10, 1/10, 1/2, 1/10, 1, 1, 1, AdsrStage.Decay, 1, true⟩ := by
  rw [envStep, c4Env_eq]
  norm_num [LinearAdsr.next_sample, MAX_LEVEL]

theorem c4_out2 : (envStep c4Env).next_sample.1 = 1/2 := by
  rw [c4_s1]
  norm_num [LinearAdsr.next_sample, MAX_LEVEL]

theorem c4_s2 :
    envStep (envStep c4Env) =
      ⟨10, 1/10, 1/10, 1/2, 1/10, 1, 1, 1, AdsrStage.Sustain, 1/2, true⟩ := by
  rw [envStep, c4_s1]
  norm_num [LinearAdsr.next_sample, MAX_LEVEL]

theorem c4_s3 :
    (envStep (envStep c4Env)).gate_off =
      ⟨10, 1/10, 1/10, 1/2, 1/10, 1, 1, 1, AdsrStage.Release, 1/2, true⟩ := by
  rw [c4_s2]
  simp [LinearAdsr.gate_off]

theorem c4_out3 : (envStep (envStep c4Env)).gate_off.next_sample.1 = 0 := by
  rw [c4_s3]
  norm_num [LinearAdsr.next_sample, MIN_LEVEL]

theorem c4_s4 :
    envStep ((envStep (envStep c4Env)).gate_off) =
      ⟨10, 1/10, 1/10, 1/2, 1/10, 1, 1, 1, AdsrStage.Idle, 0, true⟩ := by
  rw [envStep, c4_s3]
  norm_num [LinearAdsr.next_sample, MIN_LEVEL]

theorem envStep_fixed_of_sustain {e : LinearAdsr}
    (hs : e.stage = AdsrStage.Sustain) : envStep e = e := by
  obtain ⟨sr, a, d, s, r, ar, dr, rr, st, lv, rt⟩ := e
  cases st with
  | Sustain => rfl
  | Idle => simp at hs
  | Attack => simp at hs
  | Decay => simp at hs
  | Release => simp at hs

theorem envStep_fixed_of_idle {e : LinearAdsr}
    (hs : e.stage = AdsrStage.Idle) : envStep e = e := by
  obtain ⟨sr, a, d, s, r, ar, dr, rr, st, lv, rt⟩ := e
  cases st with
  | Idle => rfl
  | Attack => simp at hs
  | Decay => simp at hs
  | Sustain => simp at hs
  | Release => simp at hs

theorem next_sample_fst_of_sustain {e : LinearAdsr}
    (hs : e.stage = AdsrStage.Sustain) : e.next_sample.1 = e.level := by
  obtain ⟨sr, a, d, s, r, ar, dr, rr, st, lv, rt⟩ := e
  cases st with
  | Sustain => rfl
  | Idle => simp at hs
  | Attack => simp at hs
  | Decay => simp at hs
  | Release => simp at hs

/-- C4: the worked trace of the spec at `sample_rate = 10`,
`attack = decay = release = 0.1 s`, `sustain = 0.5`. After `gate_on`, the
first `next_sample` returns 1 and moves to `Decay`; the second returns 0.5
and moves to `Sustain` with the level clamped to exactly 0.5; every
further call returns 0.5; after `gate_off`, one call returns 0 and moves
to `Idle`, and every subsequent call returns 0. -/
theorem C4_example_trace :
    c4Env.next_sample.1 = 1 ∧
    (envStep c4Env).stage = AdsrStage.Decay ∧
    (envStep c4Env).next_sample.1 = 1/2 ∧
    (envStep (envStep c4Env)).stage = AdsrStage.Sustain ∧
    (envStep (envStep c4Env)).level = 1/2 ∧
    (∀ k : ℕ, (envStep^[k] (envStep (envStep c4Env))).next_sample.1 = 1/2) ∧
    (envStep (envStep c4Env)).gate_off.next_sample.1 = 0 ∧
    (envStep ((envStep (envStep c4Env)).gate_off)).stage = AdsrStage.Idle ∧
    (∀ k : ℕ,
      (envStep^[k] (envStep ((envStep (envStep c4Env)).gate_off))).next_sample.1 = 0) := by
  have hsus : (envStep (envStep c4Env)).stage = AdsrStage.Sustain := by
    rw [c4_s2]
  have hidle : (envStep ((envStep (envStep c4Env)).gate_off)).stage = AdsrStage.Idle := by
    rw [c4_s4]
  refine ⟨c4_out1, by rw [c4_s1], c4_out2, hsus, by rw [c4_s2], ?_, c4_out3, hidle, ?_⟩
  · intro k
    rw [Function.iterate_fixed (envStep_fixed_of_sustain hsus) k,
      next_sample_fst_of_sustain hsus, c4_s2]
  · intro k
    rw [Function.iterate_fixed (envStep_fixed_of_idle hidle) k,
      next_sample_idle_fst hidle]
    rw [c4_s4]

/-- C7: `gate_on` with retrigger enabled zeroes the level and always
restarts `Attack`; with retrigger disabled it keeps the level and picks
`Decay` exactly when the level is at least the maximum (1.0), `Attack`
otherwise. -/
theorem C7_gate_on_retrigger (e : LinearAdsr) :
    (e.retrigger = true →
      e.gate_on = { e with level := 0, stage := AdsrStage.Attack }) ∧
    (e.retrigger = false →
      e.gate_on =
        { e with stage := if 1 ≤ e.level then AdsrStage.Decay else AdsrStage.Attack }) := by
  obtain ⟨sr, a, d, s, r, ar, dr, rr, st, lv, rt⟩ := e
  constructor
  · intro h
    subst h
    simp only [LinearAdsr.gate_on]
    norm_num [MIN_LEVEL, MAX_LEVEL]
  · intro h
    subst h
    simp only [LinearAdsr.gate_on, MAX_LEVEL]
    norm_num

/-- Witness for C7: both retrigger modes exercised on concrete envelopes. -/
theorem C7_gate_on_retrigger_witness :
    ((LinearAdsr.new 10 1 1 (1/2) 1).gate_on =
      { LinearAdsr.new 10 1 1 (1/2) 1 with level := 0, stage := AdsrStage.Attack }) ∧
    (((LinearAdsr.new 10 1 1 (1/2) 1).set_retrigger false).gate_on =
      { (LinearAdsr.new 10 1 1 (1/2) 1).set_retrigger false with
          stage :=
            if 1 ≤ ((LinearAdsr.new 10 1 1 (1/2) 1).set_retrigger false).level
            then AdsrStage.Decay else AdsrStage.Attack }) :=
  ⟨(C7_gate_on_retrigger _).1 rfl, (C7_gate_on_retrigger _).2 rfl⟩

/-- Helper: the convenience trigger is a complete no-op on a failing
pitch conversion. -/
theorem voice_note_on_fail {σ ε : Type} {O : OscOps σ} {E : EnvOps ε}
    {pitch : ℕ → Option ℚ} {n : ℕ} (v : Voice σ ε) (vel : ℚ)
    (hfail : pitch n = none) : Voice.note_on O E pitch v n vel = v := by
  simp [Voice.note_on, Voice.try_note_on, hfail]

/-- C2: when the pitch conversion fails, `try_note_on` returns the error
with the voice state exactly as it was (no partial mutation), and the
convenience `note_on` is a complete no-op. -/
theorem C2_note_on_fail_no_mutation {σ ε : Type} (O : OscOps σ) (E : EnvOps ε)
    (pitch : ℕ → Option ℚ) (v : Voice σ ε) (n : ℕ) (vel : ℚ)
    (hfail : pitch n = none) :
    Voice.try_note_on O E pitch v n vel = (Except.error (), v) ∧
    Voice.note_on O E pitch v n vel = v := by
  constructor
  · simp [Voice.try_note_on, hfail]
  · exact voice_note_on_fail v vel hfail

/-- Witness for C2: MIDI note 200 is outside the collaborator's domain,
and the concrete voice is returned unchanged. -/
theorem C2_note_on_fail_no_mutation_witness :
    Voice.try_note_on unitOsc adsrEnv pitchStd sampleVoice 200 (4/5) =
        (Except.error (), sampleVoice) ∧
      Voice.note_on unitOsc adsrEnv pitchStd sampleVoice 200 (4/5) = sampleVoice :=
  C2_note_on_fail_no_mutation unitOsc adsrEnv pitchStd sampleVoice 200 (4/5)
    (by norm_num [pitchStd])

/-- Helper: writing back the element already stored at an index leaves the
list unchanged. -/
theorem list_set_self {α : Type} :
    ∀ (l : List α) (j : ℕ) (v : α), l[j]? = some v → l.set j v = l
  | [], j, v => by simp
  | a :: t, 0, v => by
    intro h
    simp only [List.getElem?_cons_zero, Option.some.injEq] at h
    simp [h]
  | a :: t, j+1, v => by
    intro h
    simp only [List.getElem?_cons_succ] at h
    simp [list_set_self t j v h]

/-- Characterization of `find_free_voice` when it returns an index: that
voice is inactive and all earlier voices are active. -/
theorem findFreeAux_some {σ ε : Type} (E : EnvOps ε) :
    ∀ (vs : List (Voice σ ε)) (i : ℕ), findFreeAux E vs = some i →
      ∃ u, vs[i]? = some u ∧ Voice.is_active E u = false ∧
        ∀ (k : ℕ) (w : Voice σ ε), k < i → vs[k]? = some w →
          Voice.is_active E w = true := by
  intro vs
  induction vs with
  | nil => intro i h; simp [findFreeAux] at h
  | cons v rest ih =>
    intro i h
    by_cases hv : Voice.is_active E v
    · simp only [findFreeAux, hv, if_true, Option.map_eq_some'] at h
      obtain ⟨i0, hi0, hadd⟩ := h
      obtain ⟨u, hu, hua, hbefore⟩ := ih i0 hi0
      subst hadd
      refine ⟨u, by simpa using hu, hua, ?_⟩
      intro k w hk hkw
      cases k with
      | zero =>
        simp only [List.getElem?_cons_zero, Option.some.injEq] at hkw
        rw [← hkw]
        exact hv
      | succ k0 =>
        simp only [List.getElem?_cons_succ] at hkw
        exact hbefore k0 w (by omega) hkw
    · simp [findFreeAux, hv] at h
      have hi : i = 0 := by omega
      subst hi
      refine ⟨v, by simp, by simpa using hv, ?_⟩
      intro k w hk _
      exact absurd hk (Nat.not_lt_zero k)

/-- Characterization of `find_free_voice` when it finds nothing: every
voice is active. -/
theorem findFreeAux_none {σ ε : Type} (E : EnvOps ε) :
    ∀ (vs : List (Voice σ ε)), findFreeAux E vs = none →
      ∀ (k : ℕ) (w : Voice σ ε), vs[k]? = some w → Voice.is_active E w = true := by
  intro vs
  induction vs with
  | nil => intro _ k w hkw; simp at hkw
  | cons v rest ih =>
    intro h k w hkw
    by_cases hv : Voice.is_active E v
    · simp only [findFreeAux, hv, if_true, Option.map_eq_none'] at h
      cases k with
      | zero =>
        simp only [List.getElem?_cons_zero, Option.some.injEq] at hkw
        rw [← hkw]
        exact hv
      | succ k0 =>
        simp only [List.getElem?_cons_succ] at hkw
        exact ih h k0 w hkw
    · simp [findFreeAux, hv] at h

/-- The first-minimum scan never fails on a nonempty list. -/
theorem firstMinIdx_cons_isSome (x : ℕ) (l : List ℕ) :
    (firstMinIdx (x :: l)).isSome := by
  simp only [firstMinIdx]
  cases firstMinIdx l with
  | none => rfl
  | some jb => by_cases h : x ≤ jb.2 <;> simp [h]

/-- Characterization of the first-minimum scan: it returns an index
holding the value, the value is a lower bound of the list, and every
earlier element is strictly larger (the first minimum wins ties). -/
theorem firstMinIdx_spec :
    ∀ (l : List ℕ) (jb : ℕ × ℕ), firstMinIdx l = some jb →
      l[jb.1]? = some jb.2 ∧ (∀ (k a : ℕ), l[k]? = some a → jb.2 ≤ a) ∧
        (∀ (k a : ℕ), k < jb.1 → l[k]? = some a → jb.2 < a) := by
  intro l
  induction l with
  | nil => intro jb h; simp [firstMinIdx] at h
  | cons x rest ih =>
    intro jb h
    simp only [firstMinIdx] at h
    cases hr : firstMinIdx rest with
    | none =>
      simp only [hr, Option.some.injEq] at h
      subst h
      have hrest : rest = [] := by
        cases hA : rest with
        | nil => rfl
        | cons y t =>
          have hsome := firstMinIdx_cons_isSome y t
          rw [← hA, hr] at hsome
          simp at hsome
      subst hrest
      refine ⟨by simp, ?_, ?_⟩
      · intro k a hka
        cases k with
        | zero =>
          simp only [List.getElem?_cons_zero, Option.some.injEq] at hka
          omega
        | succ k0 => simp at hka
      · intro k a hk _
        exact absurd hk (Nat.not_lt_zero k)
    | some jb0 =>
      simp only [hr] at h
      obtain ⟨hj0, hmin0, hstrict0⟩ := ih jb0 hr
      by_cases hx : x ≤ jb0.2
      · rw [if_pos hx, Option.some.injEq] at h
        subst h
        refine ⟨by simp, ?_, ?_⟩
        · intro k a hka
          cases k with
          | zero =>
            simp only [List.getElem?_cons_zero, Option.some.injEq] at hka
            omega
          | succ k0 =>
            simp only [List.getElem?_cons_succ] at hka
            exact le_trans hx (hmin0 k0 a hka)
        · intro k a hk _
          exact absurd hk (Nat.not_lt_zero k)
      · rw [if_neg hx, Option.some.injEq] at h
        subst h
        have hlt : jb0.2 < x := by omega
        refine ⟨by simpa using hj0, ?_, ?_⟩
        · intro k a hka
          cases k with
          | zero =>
            simp only [List.getElem?_cons_zero, Option.some.injEq] at hka
            omega
          | succ k0 =>
            simp only [List.getElem?_cons_succ] at hka
            exact hmin0 k0 a hka
        · intro k a hk hka
          cases k with
          | zero =>
            simp only [List.getElem?_cons_zero, Option.some.injEq] at hka
            omega
          | succ k0 =>
            simp only [List.getElem?_cons_succ] at hka
            exact hstrict0 k0 a (by omega) hka

/-- The index chosen by `note_on` is always within bounds for a nonempty
pool with consistent array lengths. -/
theorem select_voice_lt {σ ε : Type} (E : EnvOps ε) (p : Polyphony σ ε)
    (hlen : p.ages.length = p.voices.length) (hN : 0 < p.voices.length) :
    Polyphony.select_voice E p < p.voices.length := by
  unfold Polyphony.select_voice Polyphony.find_free_voice
  cases hf : findFreeAux E p.voices with
  | some i =>
    obtain ⟨u, hu, _, _⟩ := findFreeAux_some E p.voices i hf
    obtain ⟨hlt, _⟩ := List.getElem?_eq_some.mp hu
    exact hlt
  | none =>
    unfold Polyphony.find_voice_to_steal
    have hss : p.steal_strategy = VoiceStealStrategy.Oldest := by
      cases p.steal_strategy
      rfl
    rw [hss]
    cases hm : firstMinIdx p.ages with
    | none =>
      exfalso
      cases hA : p.ages with
      | nil =>
        rw [hA] at hlen
        simp at hlen
        omega
      | cons y t =>
        have hsome := firstMinIdx_cons_isSome y t
        rw [← hA, hm] at hsome
        simp at hsome
    | some jb =>
      obtain ⟨hj, _, _⟩ := firstMinIdx_spec p.ages jb hm
      obtain ⟨hlt, _⟩ := List.getElem?_eq_some.mp hj
      rw [hlen] at hlt
      exact hlt

/-- Unfolding of `note_on` once the selected index and voice are known. -/
theorem note_on_eq_of_select {σ ε : Type} (O : OscOps σ) (E : EnvOps ε)
    (pitch : ℕ → Option ℚ) (p : Polyphony σ ε) (n : ℕ) (vel : ℚ)
    {j : ℕ} (hj : Polyphony.select_voice E p = j)
    (hlt : j < p.voices.length) (hlen : p.ages.length = p.voices.length)
    {v : Voice σ ε} (hv : p.voices[j]? = some v) :
    Polyphony.note_on O E pitch p n vel = some
      { voices := p.voices.set j (Voice.note_on O E pitch v n vel)
        ages := p.ages.set j ((p.counter + 1) % 2 ^ 64)
        counter := (p.counter + 1) % 2 ^ 64
        steal_strategy := p.steal_strategy } := by
  have hja : j < p.ages.length := by rw [hlen]; exact hlt
  simp only [Polyphony.note_on, hj, hv, if_pos hja]

/-- C3: `note_on` picks the first inactive voice when one exists,
otherwise the first voice attaining the minimum age; in either case it
increments the counter (modulo `2^64`, the counter being a `u64`), stamps
the chosen voice's age with the new counter value, and invokes that
voice's `note_on` with the given note and velocity. -/
theorem C3_note_on_allocation {σ ε : Type} (O : OscOps σ) (E : EnvOps ε)
    (pitch : ℕ → Option ℚ) (p : Polyphony σ ε)
    (hlen : p.ages.length = p.voices.length) (hN : 0 < p.voices.length)
    (n : ℕ) (vel : ℚ) :
    ∃ (j : ℕ) (v : Voice σ ε), p.voices[j]? = some v ∧
      ((∃ (i : ℕ) (u : Voice σ ε), p.voices[i]? = some u ∧
          Voice.is_active E u = false) →
        (Voice.is_active E v = false ∧
          ∀ (k : ℕ) (u : Voice σ ε), k < j → p.voices[k]? = some u →
            Voice.is_active E u = true)) ∧
      ((∀ (i : ℕ) (u : Voice σ ε), p.voices[i]? = some u →
          Voice.is_active E u = true) →
        ∃ aj : ℕ, p.ages[j]? = some aj ∧
          (∀ (k a : ℕ), p.ages[k]? = some a → aj ≤ a) ∧
          (∀ (k a : ℕ), k < j → p.ages[k]? = some a → aj < a)) ∧
      Polyphony.note_on O E pitch p n vel = some
        { voices := p.voices.set j (Voice.note_on O E pitch v n vel)
          ages := p.ages.set j ((p.counter + 1) % 2 ^ 64)
          counter := (p.counter + 1) % 2 ^ 64
          steal_strategy := p.steal_strategy } := by
  cases hf : findFreeAux E p.voices with
  | some i =>
    obtain ⟨u, hu, hua, hbefore⟩ := findFreeAux_some E p.voices i hf
    have hsel : Polyphony.select_voice E p = i := by
      simp [Polyphony.select_voice, Polyphony.find_free_voice, hf]
    obtain ⟨hlt, _⟩ := List.getElem?_eq_some.mp hu
    refine ⟨i, u, hu, ?_, ?_,
      note_on_eq_of_select O E pitch p n vel hsel hlt hlen hu⟩
    · intro _
      exact ⟨hua, hbefore⟩
    · intro hall
      exact absurd (hall i u hu) (by simp [hua])
  | none =>
    have hall := findFreeAux_none E p.voices hf
    obtain ⟨jb, hm⟩ : ∃ jb, firstMinIdx p.ages = some jb := by
      cases hA : p.ages with
      | nil =>
        rw [hA] at hlen
        simp at hlen
        omega
      | cons y t =>
        exact Option.isSome_iff_exists.mp (firstMinIdx_cons_isSome y t)
    obtain ⟨hj, hmin, hstrict⟩ := firstMinIdx_spec p.ages jb hm
    have hsel : Polyphony.select_voice E p = jb.1 := by
      have hss : p.steal_strategy = VoiceStealStrategy.Oldest := by
        cases p.steal_strategy
        rfl
      simp [Polyphony.select_voice, Polyphony.find_free_voice, hf,
        Polyphony.find_voice_to_steal, hss, hm]
    obtain ⟨hlt0, _⟩ := List.getElem?_eq_some.mp hj
    have hlt : jb.1 < p.voices.length := by rw [← hlen]; exact hlt0
    have hv := List.getElem?_eq_getElem hlt
    refine ⟨jb.1, _, hv, ?_, ?_,
      note_on_eq_of_select O E pitch p n vel hsel hlt hlen hv⟩
    · rintro ⟨i, u, hu, huf⟩
      exact absurd (hall i u hu) (by simp [huf])
    · intro _
      exact ⟨jb.2, hj, hmin, hstrict⟩

/-- Witness for C3: the one-voice concrete pool, whose single idle voice
is allocated. -/
theorem C3_note_on_allocation_witness :
    ∃ (j : ℕ) (v : Voice Unit LinearAdsr), samplePool.voices[j]? = some v ∧
      ((∃ (i : ℕ) (u : Voice Unit LinearAdsr), samplePool.voices[i]? = some u ∧
          Voice.is_active adsrEnv u = false) →
        (Voice.is_active adsrEnv v = false ∧
          ∀ (k : ℕ) (u : Voice Unit LinearAdsr), k < j →
            samplePool.voices[k]? = some u →
            Voice.is_active adsrEnv u = true)) ∧
      ((∀ (i : ℕ) (u : Voice Unit LinearAdsr), samplePool.voices[i]? = some u →
          Voice.is_active adsrEnv u = true) →
        ∃ aj : ℕ, samplePool.ages[j]? = some aj ∧
          (∀ (k a : ℕ), samplePool.ages[k]? = some a → aj ≤ a) ∧
          (∀ (k a : ℕ), k < j → samplePool.ages[k]? = some a → aj < a)) ∧
      Polyphony.note_on unitOsc adsrEnv pitchStd samplePool 60 (4/5) = some
        { voices := samplePool.voices.set j
            (Voice.note_on unitOsc adsrEnv pitchStd v 60 (4/5))
          ages := samplePool.ages.set j ((samplePool.counter + 1) % 2 ^ 64)
          counter := (samplePool.counter + 1) % 2 ^ 64
          steal_strategy := samplePool.steal_strategy } :=
  C3_note_on_allocation unitOsc adsrEnv pitchStd samplePool rfl Nat.one_pos 60 (4/5)

/-- C5 (amended): for a pool of `N >= 1` voices, `note_on` is total (no
panic, modelled by a `some` result); `note_off`, `next_sample`,
`active_count`, and `reset` are total functions of the embedding for every
`N`. For `N = 0` the claim fails: `note_on` panics, see the
counterexample. -/
theorem C5_note_on_total {σ ε : Type} (O : OscOps σ) (E : EnvOps ε)
    (pitch : ℕ → Option ℚ) (p : Polyphony σ ε)
    (hlen : p.ages.length = p.voices.length) (hN : 0 < p.voices.length)
    (n : ℕ) (vel : ℚ) :
    (Polyphony.note_on O E pitch p n vel).isSome := by
  have hsel := select_voice_lt E p hlen hN
  rw [note_on_eq_of_select O E pitch p n vel rfl hsel hlen
    (List.getElem?_eq_getElem hsel)]
  rfl

/-- Witness for C5: the concrete one-voice pool accepts a note. -/
theorem C5_note_on_total_witness :
    (Polyphony.note_on unitOsc adsrEnv pitchStd samplePool 60 (4/5)).isSome :=
  C5_note_on_total unitOsc adsrEnv pitchStd samplePool rfl Nat.one_pos 60 (4/5)

/-- Counterexample to C5 as stated: on an empty pool (`N = 0`),
`note_on` falls back to voice index 0 (`unwrap_or(0)`) and the write
`self.ages[0] = ...` indexes out of bounds, a panic (modelled as `none`). -/
theorem C5_counterexample :
    Polyphony.note_on unitOsc adsrEnv pitchStd
      { voices := ([] : List (Voice Unit LinearAdsr))
        ages := []
        counter := 0
        steal_strategy := VoiceStealStrategy.Oldest } 60 (4/5) = none := rfl

/-- Helper: the scan of `Polyphony::next_sample` sums the outputs of
exactly the active voices and advances exactly those. -/
theorem polyNextAux_spec {σ ε : Type} (O : OscOps σ) (E : EnvOps ε) :
    ∀ vs : List (Voice σ ε),
      (polyNextAux O E vs).1 =
        ((vs.filter (Voice.is_active E)).map
          (fun v => (Voice.next_sample O E v).1)).sum ∧
      (polyNextAux O E vs).2 =
        vs.map (fun v =>
          if Voice.is_active E v then (Voice.next_sample O E v).2 else v) := by
  intro vs
  induction vs with
  | nil => exact ⟨rfl, rfl⟩
  | cons v rest ih =>
    by_cases hv : Voice.is_active E v <;>
      simp [polyNextAux, hv, List.filter_cons, ih.1, ih.2]

/-- C6: one `Polyphony::next_sample` call returns the sum, in pool order,
of the per-voice outputs of exactly the voices active at the start of the
call; it advances exactly those voices and touches nothing else. -/
theorem C6_next_sample_mix {σ ε : Type} (O : OscOps σ) (E : EnvOps ε)
    (p : Polyphony σ ε) :
    (Polyphony.next_sample O E p).1 =
      ((p.voices.filter (Voice.is_active E)).map
        (fun v => (Voice.next_sample O E v).1)).sum ∧
    (Polyphony.next_sample O E p).2.voices =
      p.voices.map (fun v =>
        if Voice.is_active E v then (Voice.next_sample O E v).2 else v) ∧
    (Polyphony.next_sample O E p).2.ages = p.ages ∧
    (Polyphony.next_sample O E p).2.counter = p.counter :=
  ⟨(polyNextAux_spec O E p.voices).1, (polyNextAux_spec O E p.voices).2,
    rfl, rfl⟩

/-- Helper: the first-match release scan of `Polyphony::note_off`. -/
theorem noteOffFirst_spec {σ ε : Type} (E : EnvOps ε) (n : ℕ) :
    ∀ vs : List (Voice σ ε),
      ((∀ v ∈ vs, v.note ≠ some n) ∧ noteOffFirst E n vs = vs) ∨
      (∃ l v r, vs = l ++ v :: r ∧ (∀ u ∈ l, u.note ≠ some n) ∧
        v.note = some n ∧
        noteOffFirst E n vs = l ++ Voice.note_off E v :: r) := by
  intro vs
  induction vs with
  | nil => exact Or.inl ⟨by simp, rfl⟩
  | cons v rest ih =>
    by_cases hv : v.note = some n
    · right
      exact ⟨[], v, rest, by simp, by simp, hv, by simp [noteOffFirst, hv]⟩
    · cases ih with
      | inl hcase =>
        left
        refine ⟨?_, by simp [noteOffFirst, hv, hcase.2]⟩
        intro u hu
        rcases List.mem_cons.mp hu with h | h
        · rw [h]
          exact hv
        · exact hcase.1 u h
      | inr hcase =>
        obtain ⟨l, w, r, hsplit, hl, hw, heq⟩ := hcase
        right
        refine ⟨v :: l, w, r, by simp [hsplit], ?_, hw, ?_⟩
        · intro u hu
          rcases List.mem_cons.mp hu with h | h
          · rw [h]
            exact hv
          · exact hl u h
        · simp only [noteOffFirst, hv, if_false, heq, List.cons_append]

/-- C8: `note_off` releases exactly the first voice in pool order holding
the note (all earlier voices hold other notes, all other voices are left
untouched), and is a complete no-op when no voice holds the note; ages and
counter are never touched. -/
theorem C8_note_off_first_match {σ ε : Type} (E : EnvOps ε)
    (p : Polyphony σ ε) (n : ℕ) :
    (Polyphony.note_off E p n).ages = p.ages ∧
    (Polyphony.note_off E p n).counter = p.counter ∧
    (((∀ v ∈ p.voices, v.note ≠ some n) ∧ Polyphony.note_off E p n = p) ∨
      (∃ l v r, p.voices = l ++ v :: r ∧ (∀ u ∈ l, u.note ≠ some n) ∧
        v.note = some n ∧
        (Polyphony.note_off E p n).voices = l ++ Voice.note_off E v :: r)) := by
  refine ⟨rfl, rfl, ?_⟩
  cases noteOffFirst_spec E n p.voices with
  | inl h =>
    left
    refine ⟨h.1, ?_⟩
    show { p with voices := noteOffFirst E n p.voices } = p
    rw [h.2]
  | inr h => exact Or.inr h

/-- Witness for C8: the concrete one-voice pool holds no note, so
releasing note 60 is a no-op. -/
theorem C8_note_off_first_match_witness :
    (Polyphony.note_off adsrEnv samplePool 60).ages = samplePool.ages ∧
    (Polyphony.note_off adsrEnv samplePool 60).counter = samplePool.counter ∧
    (((∀ v ∈ samplePool.voices, v.note ≠ some 60) ∧
        Polyphony.note_off adsrEnv samplePool 60 = samplePool) ∨
      (∃ l v r, samplePool.voices = l ++ v :: r ∧
        (∀ u ∈ l, u.note ≠ some 60) ∧ v.note = some 60 ∧
        (Polyphony.note_off adsrEnv samplePool 60).voices =
          l ++ Voice.note_off adsrEnv v :: r)) :=
  C8_note_off_first_match adsrEnv samplePool 60

/-- C10: when the pitch conversion fails, `Polyphony::note_on` still
increments the counter and stamps the selected voice's age with the new
counter value, while every voice (note, velocity, envelope, oscillator)
is left unchanged. -/
theorem C10_note_on_invalid_pitch {σ ε : Type} (O : OscOps σ) (E : EnvOps ε)
    (pitch : ℕ → Option ℚ) (p : Polyphony σ ε)
    (hlen : p.ages.length = p.voices.length) (hN : 0 < p.voices.length)
    (n : ℕ) (hfail : pitch n = none) (vel : ℚ) :
    ∃ j, j < p.voices.length ∧
      Polyphony.note_on O E pitch p n vel = some
        { voices := p.voices
          ages := p.ages.set j ((p.counter + 1) % 2 ^ 64)
          counter := (p.counter + 1) % 2 ^ 64
          steal_strategy := p.steal_strategy } := by
  have hsel := select_voice_lt E p hlen hN
  refine ⟨Polyphony.select_voice E p, hsel, ?_⟩
  have hv := List.getElem?_eq_getElem hsel
  rw [note_on_eq_of_select O E pitch p n vel rfl hsel hlen hv,
    voice_note_on_fail _ vel hfail, list_set_self _ _ _ hv]

/-- Witness for C10: MIDI note 200 fails pitch conversion in the concrete
one-voice pool, yet the age stamp and counter advance. -/
theorem C10_note_on_invalid_pitch_witness :
    ∃ j, j < samplePool.voices.length ∧
      Polyphony.note_on unitOsc adsrEnv pitchStd samplePool 200 (4/5) = some
        { voices := samplePool.voices
          ages := samplePool.ages.set j ((samplePool.counter + 1) % 2 ^ 64)
          counter := (samplePool.counter + 1) % 2 ^ 64
          steal_strategy := samplePool.steal_strategy } :=
  C10_note_on_invalid_pitch unitOsc adsrEnv pitchStd samplePool rfl
    Nat.one_pos 200 (by norm_num [pitchStd]) (4/5)

end Soundlab
